import Mathlib

/-!
# Verification of the readability scoring engine

Shallow embedding of the readability subsystem (the single source file of the
repository: score normalizer `zTransform`, the four readability algorithms,
and the sentence extractor `extractScores`).

Modelling conventions:
* JavaScript numbers are modelled by `JSNum`: exact rationals plus the
  symbolic values `NaN`, `Infinity` and `-Infinity` that the source can
  produce through division by zero.  (IEEE-754 rounding noise is idealised
  away; none of the verified properties depends on it.)
* Strings are modelled as `List Char`; the documents involved are ASCII, so
  JavaScript's UTF-16 `length`/`charAt`/`indexOf` coincide with list
  positions.  `\s` is modelled by the ASCII whitespace characters and the
  multiline `^` / `$` anchors recognise `'\n'` (the only line terminator that
  occurs in the texts considered).
* The regular expressions of the source are small and fixed, so each one is
  embedded as a dedicated matcher with JavaScript's backtracking semantics
  (greedy / lazy quantifier order), driven by a generic global-replace
  scanner.
* A thrown exception is modelled by `Option`: `extractScores` returns `none`
  exactly when the source would throw (indexing `scoreDecorations` with a
  value that is not an integer in `[0, 10]`).
-/

namespace Readability

/-- A JavaScript number: an exact rational, or one of the special values
`NaN`, `Infinity`, `-Infinity`. -/
inductive JSNum where
  | num : ℚ → JSNum
  | nan : JSNum
  | inf : JSNum
  | ninf : JSNum
deriving DecidableEq

namespace JSNum

/-- JavaScript addition. -/
def jadd : JSNum → JSNum → JSNum
  | num a, num b => num (a + b)
  | nan, _ => nan
  | _, nan => nan
  | inf, ninf => nan
  | ninf, inf => nan
  | inf, _ => inf
  | _, inf => inf
  | ninf, _ => ninf
  | _, ninf => ninf

/-- JavaScript negation. -/
def jneg : JSNum → JSNum
  | num a => num (-a)
  | nan => nan
  | inf => ninf
  | ninf => inf

/-- JavaScript subtraction. -/
def jsub (a b : JSNum) : JSNum := jadd a (jneg b)

/-- JavaScript multiplication (`Infinity * 0 = NaN`). -/
def jmul : JSNum → JSNum → JSNum
  | num a, num b => num (a * b)
  | nan, _ => nan
  | _, nan => nan
  | inf, num b => if b = 0 then nan else if 0 < b then inf else ninf
  | num a, inf => if a = 0 then nan else if 0 < a then inf else ninf
  | ninf, num b => if b = 0 then nan else if 0 < b then ninf else inf
  | num a, ninf => if a = 0 then nan else if 0 < a then ninf else inf
  | inf, inf => inf
  | inf, ninf => ninf
  | ninf, inf => ninf
  | ninf, ninf => inf

/-- JavaScript division (`x / 0` is `NaN` for `x = 0`, otherwise `±Infinity`). -/
def jdiv : JSNum → JSNum → JSNum
  | num a, num b =>
      if b = 0 then (if a = 0 then nan else if 0 < a then inf else ninf)
      else num (a / b)
  | nan, _ => nan
  | _, nan => nan
  | num _, inf => num 0
  | num _, ninf => num 0
  | inf, num b => if 0 ≤ b then inf else ninf
  | ninf, num b => if 0 ≤ b then ninf else inf
  | inf, _ => nan
  | ninf, _ => nan

/-- JavaScript `<` (any comparison involving `NaN` is false). -/
def jlt : JSNum → JSNum → Bool
  | num a, num b => decide (a < b)
  | nan, _ => false
  | _, nan => false
  | inf, inf => false
  | ninf, ninf => false
  | _, inf => true
  | inf, _ => false
  | ninf, _ => true
  | _, ninf => false

/-- JavaScript `>`. -/
def jgt (a b : JSNum) : Bool := jlt b a

/-- `Math.floor`. -/
def jfloor : JSNum → JSNum
  | num a => num ((⌊a⌋ : ℤ) : ℚ)
  | x => x

/-- `Math.ceil`. -/
def jceil : JSNum → JSNum
  | num a => num ((⌈a⌉ : ℤ) : ℚ)
  | x => x

/-- `Math.round` (half-up, as in JavaScript). -/
def jround : JSNum → JSNum
  | num a => num ((⌊a + 1/2⌋ : ℤ) : ℚ)
  | x => x

/-- Whether the value is an ordinary (finite) number. -/
def isNum : JSNum → Bool
  | num _ => true
  | _ => false

instance : Add JSNum := ⟨jadd⟩
instance : Neg JSNum := ⟨jneg⟩
instance : Sub JSNum := ⟨jsub⟩
instance : Mul JSNum := ⟨jmul⟩
instance : Div JSNum := ⟨jdiv⟩
instance : OfNat JSNum n := ⟨num n⟩
instance : NatCast JSNum := ⟨fun n => num n⟩
instance : OfScientific JSNum := ⟨fun m e d => num (OfScientific.ofScientific m e d)⟩

@[simp] theorem num_add (a b : ℚ) : (num a) + (num b) = num (a + b) := rfl
@[simp] theorem num_sub (a b : ℚ) : (num a) - (num b) = num (a - b) := by
  show jadd (num a) (jneg (num b)) = num (a - b)
  simp [jadd, jneg]; ring
@[simp] theorem num_mul (a b : ℚ) : (num a) * (num b) = num (a * b) := rfl
@[simp] theorem num_div (a b : ℚ) (h : b ≠ 0) : (num a) / (num b) = num (a / b) := by
  show jdiv (num a) (num b) = num (a / b)
  simp [jdiv, h]
@[simp] theorem jfloor_num (a : ℚ) : jfloor (num a) = num ((⌊a⌋ : ℤ) : ℚ) := rfl
@[simp] theorem jceil_num (a : ℚ) : jceil (num a) = num ((⌈a⌉ : ℤ) : ℚ) := rfl
@[simp] theorem jround_num (a : ℚ) : jround (num a) = num ((⌊a + 1/2⌋ : ℤ) : ℚ) := rfl
@[simp] theorem jlt_num (a b : ℚ) : jlt (num a) (num b) = decide (a < b) := rfl
@[simp] theorem jgt_num (a b : ℚ) : jgt (num a) (num b) = decide (b < a) := rfl
@[simp] theorem isNum_num (a : ℚ) : isNum (num a) = true := rfl
@[simp] theorem ofNat_eq_num (n : ℕ) [n.AtLeastTwo] :
    (OfNat.ofNat n : JSNum) = num (OfNat.ofNat n) := rfl
@[simp] theorem zero_eq_num : (0 : JSNum) = num 0 := rfl
@[simp] theorem one_eq_num : (1 : JSNum) = num 1 := rfl
@[simp] theorem natCast_eq_num (n : ℕ) : (n : JSNum) = num n := rfl
@[simp] theorem scientific_eq_num (m e : ℕ) (d : Bool) :
    (OfScientific.ofScientific m d e : JSNum) =
      num (OfScientific.ofScientific m d e) := rfl

end JSNum

open JSNum

/-! ## String primitives

Texts are `List Char`.  The helpers below embed the JavaScript string
primitives used by the source (`charAt`, `indexOf`, `trim`, `split`) and the
building blocks of its regular expressions. -/

/-- JavaScript `\s` restricted to ASCII whitespace. -/
def jsWs (c : Char) : Bool :=
  c == ' ' || c == '\t' || c == '\n' || c == '\x0d' || c == '\x0b' || c == '\x0c'

/-- The backtick character (code 96). -/
def btick : Char := Char.ofNat 96

/-- Multiline `^`: position `i` starts a line. -/
def lineStart (s : List Char) (i : ℕ) : Bool :=
  i == 0 || (s.get? (i - 1)).any (· == '\n')

/-- Multiline `$`: position `i` is the end of the string or sits before `'\n'`. -/
def lineEnd (s : List Char) (i : ℕ) : Bool :=
  i == s.length || (s.get? i).any (· == '\n')

/-- Length of the maximal run of characters satisfying `p` starting at `i`. -/
def runLen (p : Char → Bool) (s : List Char) (i : ℕ) : ℕ :=
  ((s.drop i).takeWhile p).length

/-- Whether `pat` occurs in `s` starting exactly at position `i`. -/
def seqAt (s : List Char) (i : ℕ) (pat : List Char) : Bool :=
  (s.drop i).take pat.length == pat

/-- The list `[n, n-1, ..., 1]` (backtracking order of a greedy quantifier). -/
def descList (n : ℕ) : List ℕ := (List.range n).map (fun k => n - k)

/-- `String.prototype.indexOf(pat, start)`: position of the first occurrence
of `pat` at or after `start` (clamped to `[0, length]`), or `-1`.  An empty
`pat` is found immediately at the clamped start position. -/
def jsIndexOf (t pat : List Char) (start : ℤ) : ℤ :=
  if pat.isEmpty then (min (max start 0).toNat t.length : ℤ)
  else
    (Option.map Int.ofNat
      ((List.range (t.length + 1)).find?
        (fun i => min (max start 0).toNat t.length ≤ i && seqAt t i pat))).getD (-1)

/-- Source line 193: `'.:!?'.includes(text.charAt(rangeEnd))`.  `charAt` out
of range yields the empty string, and `includes('')` is `true`, so the test
also succeeds past either end of the text. -/
def punctAt (t : List Char) (i : ℤ) : Bool :=
  match (if 0 ≤ i then t.get? i.toNat else none) with
  | some c => c == '.' || c == ':' || c == '!' || c == '?'
  | none => true

/-- JavaScript `trim()`. -/
def jsTrim (s : List Char) : List Char :=
  ((s.dropWhile jsWs).reverse.dropWhile jsWs).reverse

/-- `split(' ')`: split at every single space character. -/
def splitOnSpace : List Char → List Char → List (List Char)
  | [], cur => [cur.reverse]
  | c :: rest, cur =>
      if c == ' ' then cur.reverse :: splitOnSpace rest []
      else splitOnSpace rest (c :: cur)

/-! ## The regular expressions of the source

Each `match...` function decides whether the given regex matches at position
`i` of `s`, returning the length of the match (JavaScript backtracking
order: greedy quantifiers longest-first, lazy quantifiers shortest-first)
together with the replacement text. -/

/-- A matcher returns the number of characters consumed (always positive for
the patterns below) and the replacement text. -/
abbrev Matcher := List Char → ℕ → Option (ℕ × List Char)

/-- One pass of `String.prototype.replace` with a global regex: scan left to
right, replacing every match (anchors keep referring to the original
string). `fuel` bounds the recursion; positions advance by at least one. -/
def scanGo (m : Matcher) (s : List Char) : ℕ → ℕ → List Char
  | 0, _ => []
  | fuel + 1, i =>
      if h : i < s.length then
        match m s i with
        | some (L, rep) =>
            if L = 0 then s.get ⟨i, h⟩ :: scanGo m s fuel (i + 1)
            else rep ++ scanGo m s fuel (i + L)
        | none => s.get ⟨i, h⟩ :: scanGo m s fuel (i + 1)
      else []

/-- Global replace. -/
def scanReplace (m : Matcher) (s : List Char) : List Char :=
  scanGo m s s.length 0

/-- Non-global replace: only the first match is replaced. -/
def scanFirstGo (m : Matcher) (s : List Char) : ℕ → ℕ → List Char
  | 0, _ => []
  | fuel + 1, i =>
      if h : i < s.length then
        match m s i with
        | some (L, rep) =>
            if L = 0 then s.get ⟨i, h⟩ :: scanFirstGo m s fuel (i + 1)
            else rep ++ s.drop (i + L)
        | none => s.get ⟨i, h⟩ :: scanFirstGo m s fuel (i + 1)
      else []

/-- Replace the first match only. -/
def scanReplaceFirst (m : Matcher) (s : List Char) : List Char :=
  scanFirstGo m s s.length 0

/-- Fenced code blocks, source line 178: backtick fence at a line start, lazy
body, closing backtick fence on its own line end (`gsm` flags). -/
def matchFenced : Matcher := fun s i =>
  if lineStart s i then
    (descList (min 3 (runLen (· == btick) s i))).findSome? (fun q1 =>
      (List.range s.length).findSome? (fun k =>
        let len := k + 1
        let j := i + q1 + len
        if j ≤ s.length && lineStart s j then
          (descList (min 3 (runLen (· == btick) s j))).findSome? (fun q2 =>
            if lineEnd s (j + q2) then some (q1 + len + q2, ([] : List Char))
            else none)
        else none))
  else none

/-- Frontmatter blocks, source line 179: `---` at a line start, lazy body,
closing `---` or `...` at a line start followed by a line end. -/
def matchFrontmatter : Matcher := fun s i =>
  if lineStart s i && seqAt s i ['-', '-', '-'] then
    (List.range s.length).findSome? (fun k =>
      let len := k + 1
      let j := i + 3 + len
      if lineStart s j && (seqAt s j ['-', '-', '-'] || seqAt s j ['.', '.', '.']) &&
          lineEnd s (j + 3) then
        some (3 + len + 3, ([] : List Char))
      else none)
  else none

/-- ATX heading markers, source line 180: 1-6 `#` at a line start followed by
whitespace (greedy). -/
def matchHeading : Matcher := fun s i =>
  if lineStart s i then
    (descList 6).findSome? (fun q =>
      if seqAt s i (List.replicate q '#') && (s.get? (i + q)).any jsWs then
        some (q + runLen jsWs s (i + q), ([] : List Char))
      else none)
  else none

/-- Checkbox list markers, source line 181 (`gmi` flags): optional
whitespace, a bullet, whitespace, `[x]`/`[X]`/`[ ]`, whitespace. -/
def matchCheckbox : Matcher := fun s i =>
  if lineStart s i then
    let t := runLen jsWs s i
    let j := i + t
    if (s.get? j).any (fun c => c == '-' || c == '+' || c == '*') &&
        (s.get? (j + 1)).any jsWs &&
        (s.get? (j + 2)).any (· == '[') &&
        (s.get? (j + 3)).any (fun c => c == 'x' || c == 'X' || jsWs c) &&
        (s.get? (j + 4)).any (· == ']') &&
        (s.get? (j + 5)).any jsWs then
      some (t + 6, ([] : List Char))
    else none
  else none

/-- Block-level stripping, source lines 178-181 (four chained replaces). -/
def strippedText (t : List Char) : List Char :=
  scanReplace matchCheckbox
    (scanReplace matchHeading
      (scanReplace matchFrontmatter
        (scanReplace matchFenced t)))

/-- Sentence splitting, source line 183: split at `[.:!?]\s+` (first
alternative, whitespace greedy) or `\n`. -/
def splitGo (s : List Char) : ℕ → ℕ → List Char → List (List Char)
  | 0, _, cur => [cur.reverse]
  | fuel + 1, i, cur =>
      if h : i < s.length then
        let c := s.get ⟨i, h⟩
        if (c == '.' || c == ':' || c == '!' || c == '?') &&
            (s.get? (i + 1)).any jsWs then
          cur.reverse :: splitGo s fuel (i + 1 + runLen jsWs s (i + 1)) []
        else if c == '\n' then
          cur.reverse :: splitGo s fuel (i + 1) []
        else
          splitGo s fuel (i + 1) (c :: cur)
      else [cur.reverse]

/-- The candidate sentences of a text: block-strip then split. -/
def candidates (t : List Char) : List (List Char) :=
  let s := strippedText t
  splitGo s (s.length + 1) 0 []

/-- Emphasis spans, source line 202: `[*_]{1,3}[^_*]+[_*]{1,3}`, removed
wholesale (the replacement is the empty string). -/
def matchEmph : Matcher := fun s i =>
  let star : Char → Bool := fun c => c == '*' || c == '_'
  let o := runLen star s i
  if o = 0 || 3 < o then none
  else
    let l := runLen (fun c => !star c) s (i + o)
    if l = 0 then none
    else
      let q2 := min 3 (runLen star s (i + o + l))
      if q2 = 0 then none else some (o + l + q2, ([] : List Char))

/-- Wiki links, source line 203: `\[\[[^\]]+\[\[` (the source's own pattern,
closing with `[[`); the inner part is greedy, so the longest body wins. -/
def matchWiki : Matcher := fun s i =>
  if seqAt s i ['[', '['] then
    (descList (runLen (· != ']') s (i + 2))).findSome? (fun l =>
      if seqAt s (i + 2 + l) ['[', '['] then some (l + 4, ([] : List Char))
      else none)
  else none

/-- Images, source line 204: `!\[[^\]]+\]\([^)]+\)`. -/
def matchImage : Matcher := fun s i =>
  if (s.get? i).any (· == '!') && (s.get? (i + 1)).any (· == '[') then
    let l1 := runLen (· != ']') s (i + 2)
    if l1 = 0 || !(s.get? (i + 2 + l1)).any (· == ']') then none
    else
      let j := i + 2 + l1 + 1
      if (s.get? j).any (· == '(') then
        let l2 := runLen (· != ')') s (j + 1)
        if l2 = 0 || !(s.get? (j + 1 + l2)).any (· == ')') then none
        else some (l1 + l2 + 5, ([] : List Char))
      else none
  else none

/-- Links, source line 205: `\[([^\]]+)\]\([^)]+\)` replaced by the display
text `$1`. -/
def matchLink : Matcher := fun s i =>
  if (s.get? i).any (· == '[') then
    let l1 := runLen (· != ']') s (i + 1)
    if l1 = 0 || !(s.get? (i + 1 + l1)).any (· == ']') then none
    else
      let j := i + 1 + l1 + 1
      if (s.get? j).any (· == '(') then
        let l2 := runLen (· != ')') s (j + 1)
        if l2 = 0 || !(s.get? (j + 1 + l2)).any (· == ')') then none
        else some (l1 + l2 + 4, (s.drop (i + 1)).take l1)
      else none
  else none

/-- Citations, source line 206 (non-global): `\[[^[\]]*@[^[\]]+\]`.  The
body is a bracket-free run containing an `@` that is not its last
character. -/
def matchCitation : Matcher := fun s i =>
  if (s.get? i).any (· == '[') then
    let m := runLen (fun c => c != '[' && c != ']') s (i + 1)
    let seg := (s.drop (i + 1)).take m
    if (s.get? (i + 1 + m)).any (· == ']') && seg.dropLast.contains '@' then
      some (m + 2, ([] : List Char))
    else none
  else none

/-- Inline markup stripping, source lines 202-206 (four global replaces and
one first-only replace, chained in source order). -/
def inlineStrip (s : List Char) : List Char :=
  scanReplaceFirst matchCitation
    (scanReplace matchLink
      (scanReplace matchImage
        (scanReplace matchWiki
          (scanReplace matchEmph s))))

/-! ## The readability algorithms (source lines 85-171) -/

/-- `words.join('').length`, source lines 95/128/149/160. -/
def totalChars (words : List String) : ℕ := (String.join words).length

/-- Mean word length (meaningful for non-empty `words`; the `n = 0` case is
handled by the `NaN` branches of the algorithms). -/
def meanQ (words : List String) : ℚ := (totalChars words : ℚ) / (words.length : ℚ)

/-- Sum of squared deviations of the word lengths from the mean, source
lines 98-99/131-132. -/
def sosQ (words : List String) : ℚ :=
  (words.map (fun w => ((w.length : ℚ) - meanQ words) ^ 2)).sum

/-- `word.length > wordThreshold` where
`wordThreshold = mean + 2 * sqrt(sos / (n - 1))` (source lines 102-105 and
135-137).  For `n ≤ 1` the source divides `0 / 0` (`n = 1`) or has a `NaN`
mean (`n = 0`), the threshold is `NaN`, and the JavaScript `>` is false.
For `n ≥ 2` the radicand `v = sos / (n-1)` is nonnegative and
`len > mean + 2 * sqrt v` is decided by its exact rational characterisation
`len - mean > 0 ∧ (len - mean)^2 > 4 * v`. -/
def isDifficultLen (n : ℕ) (mean v : ℚ) (len : ℕ) : Bool :=
  if n ≤ 1 then false
  else
    decide (mean < (len : ℚ)) &&
    decide (4 * v < ((len : ℚ) - mean) ^ 2)

/-- `word.length > wordThreshold` for a word of the given sentence. -/
def isDifficult (words : List String) (w : String) : Bool :=
  isDifficultLen words.length (meanQ words)
    (sosQ words / ((words.length : ℚ) - 1)) w.length

/-- The number of difficult words of a sentence. -/
def difficultCount (words : List String) : ℕ :=
  (words.filter (fun w => isDifficult words w)).length

/-- The score normalizer, source lines 63-78 (`zTransform`).  The source's
default arguments `targetMin = 0`, `targetMax = 10` are passed explicitly at
every call site. -/
def zTransform (val sourceMin sourceMax targetMin targetMax : JSNum) : JSNum :=
  let sourceRange := sourceMax - sourceMin
  let targetRange := targetMax - targetMin
  let percentage := jround ((val - sourceMin) / sourceRange * 100) / 100
  let targetVal := targetMin + percentage * targetRange
  jround targetVal

/-- Dale-Chall, source lines 86-120. -/
def daleChall (words : List String) : JSNum :=
  let totalSize := words.length
  let difficultWords := difficultCount words
  let percentageOfDifficultWords := (difficultWords : JSNum) / (totalSize : JSNum)
  let score := (0.1579 : JSNum) * percentageOfDifficultWords * 100 +
    (0.0496 : JSNum) * (totalSize : JSNum)
  let score := if jgt percentageOfDifficultWords 0.05 then score + 3.6365 else score
  let score := jfloor score
  let score := if jlt score 0 then (0 : JSNum) else score
  let score := if jgt score 9 then (10 : JSNum) else score
  zTransform score 0 10 0 10

/-- Gunning-Fog, source lines 121-145. -/
def gunningFog (words : List String) : JSNum :=
  let difficultWords := difficultCount words
  let score := (0.4 : JSNum) *
    ((words.length : JSNum) + (100 : JSNum) * (difficultWords : JSNum) / (words.length : JSNum))
  let score := if jlt score 0 then (0 : JSNum) else score
  let score := if jgt score 20 then (20 : JSNum) else score
  zTransform score 0 20 0 10

/-- Coleman-Liau, source lines 146-156. -/
def colemanLiau (words : List String) : JSNum :=
  let mean := (totalChars words : JSNum) / (words.length : JSNum)
  let score := (5.89 : JSNum) * mean -
    (0.3 : JSNum) / ((100 : JSNum) * (words.length : JSNum)) - 15.8
  let score := if jlt score 0 then (0 : JSNum) else score
  let score := if jgt score 30 then (30 : JSNum) else score
  zTransform score 0 30 0 10

/-- Automated Readability Index, source lines 157-170. -/
def automatedReadability (words : List String) : JSNum :=
  let mean := (totalChars words : JSNum) / (words.length : JSNum)
  let score := (4.71 : JSNum) * mean + (0.5 : JSNum) * (words.length : JSNum) - 21.43
  let score := jceil score
  let score := if jlt score 0 then (0 : JSNum) else score
  let score := if jgt score 50 then (50 : JSNum) else score
  zTransform score 0 50 0 10

/-- The four supported algorithm selectors (keys of the source's
`readabilityAlgorithms` dictionary). -/
inductive Alg where
  | daleChall
  | gunningFog
  | colemanLiau
  | automatedReadability
deriving DecidableEq

/-- Dictionary dispatch, source line 85/214. -/
def readabilityAlgorithms : Alg → List String → JSNum
  | Alg.daleChall => daleChall
  | Alg.gunningFog => gunningFog
  | Alg.colemanLiau => colemanLiau
  | Alg.automatedReadability => automatedReadability

/-! ## The sentence extractor (source lines 173-219) -/

/-- The record produced for one candidate by the locating map (source lines
185-208).  `idx` is the `indexOf` result (`-1` when not found), `rEnd` the
possibly punctuation-extended end position; `from`/`to` of the source are
`offset + idx` / `offset + rEnd`.  `clen` records the candidate's length
(a closure-level quantity of the source: `sentence.length`), and `sentence`
is the inline-stripped copy used downstream. -/
structure Located where
  idx : ℤ
  rEnd : ℤ
  clen : ℕ
  sentence : List Char
deriving DecidableEq

/-- The locating map with its monotonic cursor `lastSeenIndex` (source lines
185-208). -/
def locateGo (t : List Char) : ℤ → List (List Char) → List Located
  | _, [] => []
  | cursor, c :: rest =>
      let idx := jsIndexOf t c cursor
      let lastSeen := idx + (c.length : ℤ)
      let rEnd := if punctAt t lastSeen then lastSeen + 1 else lastSeen
      ⟨idx, rEnd, c.length, inlineStrip c⟩ :: locateGo t lastSeen rest

/-- Variant of `locateGo` that keeps the raw candidate as the sentence
(used to state that inline stripping does not change the ranges). -/
def locateGoRaw (t : List Char) : ℤ → List (List Char) → List Located
  | _, [] => []
  | cursor, c :: rest =>
      let idx := jsIndexOf t c cursor
      let lastSeen := idx + (c.length : ℤ)
      let rEnd := if punctAt t lastSeen then lastSeen + 1 else lastSeen
      ⟨idx, rEnd, c.length, c⟩ :: locateGoRaw t lastSeen rest

/-- Whether every candidate's occurrence search succeeds (the defensive
"sentence not found" case of the spec never fires). -/
def allFoundGo (t : List Char) : ℤ → List (List Char) → Bool
  | _, [] => true
  | cursor, c :: rest =>
      let idx := jsIndexOf t c cursor
      decide (0 ≤ idx) && allFoundGo t (idx + (c.length : ℤ)) rest

/-- All candidates of `text` are located. -/
def allFound (text : String) : Bool :=
  allFoundGo text.toList 0 (candidates text.toList)

/-- The located records of a text. -/
def located (t : List Char) : List Located :=
  locateGo t 0 (candidates t)

/-- Source line 210: keep only sentences of (untrimmed, inline-stripped)
length at least 2. -/
def filteredRecs (t : List Char) : List Located :=
  (located t).filter (fun v => 2 ≤ v.sentence.length)

/-- Source line 213: `sentence.trim().split(' ').filter(word => word !== '')`. -/
def wordsOfSentence (s : List Char) : List String :=
  ((splitOnSpace (jsTrim s) []).filter (fun w => w ≠ [])).map (fun w => w.asString)

/-- A scored sentence before decoration (source lines 212-216). -/
structure Scored where
  fromPos : ℤ
  toPos : ℤ
  score : JSNum
deriving DecidableEq

/-- Tokenize and score (source lines 212-216); `from = offset + idx`,
`to = offset + rangeEnd` per source lines 198-199. -/
def scoredRecs (t : List Char) (offset : ℤ) (a : Alg) : List Scored :=
  (filteredRecs t).map (fun v =>
    let words := wordsOfSentence v.sentence
    ⟨offset + v.idx, offset + v.rEnd, readabilityAlgorithms a words⟩)

/-- A decorated range: the emitted `from`/`to` and the index into the
`scoreDecorations` array (source lines 4-16). -/
structure ScoredRange where
  fromPos : ℤ
  toPos : ℤ
  score : ℕ
deriving DecidableEq

/-- Source line 218: `scoreDecorations[v.score].range(v.from, v.to)`.
`scoreDecorations` has the eleven indices `0..10`; any other index (in
particular `NaN`) yields `undefined` and the `.range` call throws, modelled
by `none`. -/
def decorate (v : Scored) : Option ScoredRange :=
  match v.score with
  | JSNum.num q =>
      if 0 ≤ q ∧ q ≤ 10 ∧ q.den = 1 then some ⟨v.fromPos, v.toPos, q.num.toNat⟩
      else none
  | _ => none

/-- Decorate every scored sentence; the first failing decoration aborts the
whole call (a thrown exception propagates out of the `.map`). -/
def decorateAll : List Scored → Option (List ScoredRange)
  | [] => some []
  | v :: rest =>
      match decorate v, decorateAll rest with
      | some r, some rs => some (r :: rs)
      | _, _ => none

/-- The extractor, source lines 173-219.  `none` models a thrown exception. -/
def extractScores (text : String) (offset : ℤ) (a : Alg) : Option (List ScoredRange) :=
  decorateAll (scoredRecs text.toList offset a)

/-- The sentence texts that survive the length filter (the inline-stripped
copies handed to the tokenizer). -/
def sentTexts (text : String) : List String :=
  (filteredRecs text.toList).map (fun v => v.sentence.asString)

/-- The word lists handed to the scoring algorithms, one per kept sentence. -/
def wordLists (text : String) : List (List String) :=
  (filteredRecs text.toList).map (fun v => wordsOfSentence v.sentence)

/-! ## Spec-side definitions (for refinement statements) -/

/-- Rounding to the nearest integer, half up (`Math.round`). -/
def roundQ (x : ℚ) : ℚ := ((⌊x + 1/2⌋ : ℤ) : ℚ)

/-- The normalizer as the spec words it: the fraction
`(value - sourceMin) / (sourceMax - sourceMin)` is rounded to two decimal
digits, rescaled to the default target range `[0, 10]`, and rounded to the
nearest integer. -/
def normalizeSpec (v lo hi : ℚ) : ℚ :=
  roundQ (roundQ ((v - lo) / (hi - lo) * 100) / 100 * 10)

/-- The Automated Readability Index as the spec words it:
`4.71 × meanWordLength + 0.5 × totalWords − 21.43`, ceiling-rounded, clamped
to `[0, 50]`, then normalized with source range `[0, 50]`. -/
def ariSpec (words : List String) : ℚ :=
  let mean : ℚ := (totalChars words : ℚ) / (words.length : ℚ)
  let raw : ℚ := 4.71 * mean + 0.5 * (words.length : ℚ) - 21.43
  normalizeSpec (max 0 (min 50 ((⌈raw⌉ : ℤ) : ℚ))) 0 50

/-! ## Basic lemmas about `JSNum` -/

namespace JSNum

@[simp] theorem nan_add (x : JSNum) : nan + x = nan := by cases x <;> rfl
@[simp] theorem add_nan (x : JSNum) : x + nan = nan := by cases x <;> rfl
@[simp] theorem nan_sub (x : JSNum) : nan - x = nan := by cases x <;> rfl
@[simp] theorem sub_nan (x : JSNum) : x - nan = nan := by cases x <;> rfl
@[simp] theorem nan_mul (x : JSNum) : nan * x = nan := by cases x <;> rfl
@[simp] theorem mul_nan (x : JSNum) : x * nan = nan := by cases x <;> rfl
@[simp] theorem nan_div (x : JSNum) : jdiv nan x = nan := by cases x <;> rfl
@[simp] theorem div_nan (x : JSNum) : jdiv x nan = nan := by cases x <;> rfl
@[simp] theorem nan_hdiv (x : JSNum) : nan / x = nan := by cases x <;> rfl
@[simp] theorem hdiv_nan (x : JSNum) : x / nan = nan := by cases x <;> rfl
@[simp] theorem jlt_nan (x : JSNum) : jlt x nan = false := by cases x <;> rfl
@[simp] theorem nan_jlt (x : JSNum) : jlt nan x = false := by cases x <;> rfl
@[simp] theorem jgt_nan (x : JSNum) : jgt x nan = false := by cases x <;> rfl
@[simp] theorem nan_jgt (x : JSNum) : jgt nan x = false := by cases x <;> rfl
@[simp] theorem jfloor_nan : jfloor nan = nan := rfl
@[simp] theorem jceil_nan : jceil nan = nan := rfl
@[simp] theorem jround_nan : jround nan = nan := rfl
@[simp] theorem isNum_nan : isNum nan = false := rfl

/-- `zTransform` of an ordinary value between ordinary bounds with a nonzero
source range is the rounded two-step rescaling, as a plain rational. -/
theorem zTransform_num (q lo hi t1 t2 : ℚ) (h : hi - lo ≠ 0) :
    zTransform (num q) (num lo) (num hi) (num t1) (num t2) =
      num (roundQ (t1 + roundQ ((q - lo) / (hi - lo) * 100) / 100 * (t2 - t1))) := by
  simp [zTransform, h, roundQ]

/-- `zTransform` propagates `NaN`. -/
@[simp] theorem zTransform_nan (lo hi t1 t2 : JSNum) :
    zTransform nan lo hi t1 t2 = nan := by
  simp [zTransform]

end JSNum

/-! ## Evaluation lemmas for the algorithms -/

/-- A one-word sentence has no difficult words: the source's standard
deviation is `sqrt(0 / 0) = NaN`, every `>` comparison against the `NaN`
threshold is false. -/
theorem difficultCount_single (w : String) : difficultCount [w] = 0 := by
  simp [difficultCount, isDifficult, isDifficultLen]

/-- An empty word list has no difficult words. -/
theorem difficultCount_nil : difficultCount [] = 0 := rfl

theorem daleChall_single (w : String) : daleChall [w] = JSNum.num 0 := by
  unfold daleChall
  rw [difficultCount_single]
  simp (disch := norm_num) only [List.length_cons, List.length_nil, natCast_eq_num,
    scientific_eq_num, ofNat_eq_num, zero_eq_num, one_eq_num, num_mul, num_add, num_sub,
    num_div, jlt_num, jgt_num, jfloor_num, jround_num, Nat.cast_one, Nat.cast_ofNat,
    decide_eq_true_eq, if_pos, if_neg, zTransform]
  norm_num

theorem gunningFog_single (w : String) : gunningFog [w] = JSNum.num 0 := by
  unfold gunningFog
  rw [difficultCount_single]
  simp (disch := norm_num) only [List.length_cons, List.length_nil, natCast_eq_num,
    scientific_eq_num, ofNat_eq_num, zero_eq_num, one_eq_num, num_mul, num_add, num_sub,
    num_div, jlt_num, jgt_num, jfloor_num, jround_num, Nat.cast_one, Nat.cast_ofNat,
    decide_eq_true_eq, if_pos, if_neg, zTransform]
  norm_num

/-- `0 / 0` is `NaN` (source of all `NaN`s in the algorithms). -/
theorem num_zero_div_zero : (JSNum.num 0) / (JSNum.num 0) = JSNum.nan := by
  show jdiv (JSNum.num 0) (JSNum.num 0) = JSNum.nan
  simp [jdiv]

theorem totalChars_nil : totalChars [] = 0 := rfl

/-- On an empty word list every algorithm yields `NaN` (`0/0` in the mean or
percentage computation propagates). -/
theorem daleChall_nil : daleChall [] = JSNum.nan := by
  unfold daleChall
  rw [difficultCount_nil]
  simp only [List.length_nil, natCast_eq_num, scientific_eq_num, ofNat_eq_num,
    zero_eq_num, one_eq_num, Nat.cast_zero, num_zero_div_zero, mul_nan, nan_mul,
    nan_add, add_nan, nan_jgt, jgt_nan, nan_jlt, jlt_nan, Bool.false_eq_true,
    if_false, jfloor_nan, zTransform_nan]

theorem gunningFog_nil : gunningFog [] = JSNum.nan := by
  unfold gunningFog
  rw [difficultCount_nil]
  simp only [List.length_nil, natCast_eq_num, scientific_eq_num, ofNat_eq_num,
    zero_eq_num, one_eq_num, Nat.cast_zero, num_mul, mul_zero,
    num_zero_div_zero, mul_nan, nan_mul, nan_add, add_nan, nan_jgt, jgt_nan,
    nan_jlt, jlt_nan, Bool.false_eq_true, if_false, zTransform_nan]

theorem colemanLiau_nil : colemanLiau [] = JSNum.nan := by
  unfold colemanLiau
  simp only [List.length_nil, totalChars_nil, natCast_eq_num, scientific_eq_num,
    ofNat_eq_num, zero_eq_num, one_eq_num, Nat.cast_zero, num_zero_div_zero,
    mul_nan, nan_mul, nan_sub, sub_nan, nan_jgt, jgt_nan, nan_jlt, jlt_nan,
    Bool.false_eq_true, if_false, zTransform_nan]

theorem automatedReadability_nil : automatedReadability [] = JSNum.nan := by
  unfold automatedReadability
  simp only [List.length_nil, totalChars_nil, natCast_eq_num, scientific_eq_num,
    ofNat_eq_num, zero_eq_num, one_eq_num, Nat.cast_zero, num_zero_div_zero,
    mul_nan, nan_mul, nan_add, add_nan, nan_sub, sub_nan, nan_jgt, jgt_nan,
    nan_jlt, jlt_nan, Bool.false_eq_true, if_false, jceil_nan, zTransform_nan]

/-- On a one-word list Coleman-Liau stays finite (no `NaN` path). -/
theorem colemanLiau_single_isNum (w : String) : (colemanLiau [w]).isNum = true := by
  unfold colemanLiau
  simp (disch := norm_num) only [List.length_cons, List.length_nil, natCast_eq_num,
    scientific_eq_num, ofNat_eq_num, zero_eq_num, one_eq_num, num_mul, num_add, num_sub,
    num_div, Nat.cast_one, Nat.cast_zero, zero_add]
  split_ifs <;>
    simp (disch := norm_num) only [zTransform, zero_eq_num, one_eq_num, ofNat_eq_num,
      num_sub, num_div, num_mul, num_add, jround_num, isNum_num]

/-- On a one-word list the ARI stays finite (no `NaN` path). -/
theorem automatedReadability_single_isNum (w : String) :
    (automatedReadability [w]).isNum = true := by
  unfold automatedReadability
  simp (disch := norm_num) only [List.length_cons, List.length_nil, natCast_eq_num,
    scientific_eq_num, ofNat_eq_num, zero_eq_num, one_eq_num, num_mul, num_add, num_sub,
    num_div, jceil_num, Nat.cast_one, Nat.cast_zero, zero_add]
  split_ifs <;>
    simp (disch := norm_num) only [zTransform, zero_eq_num, one_eq_num, ofNat_eq_num,
      num_sub, num_div, num_mul, num_add, jround_num, isNum_num]

theorem colemanLiau_Go : colemanLiau ["Go"] = JSNum.num 0 := by
  unfold colemanLiau
  simp (disch := norm_num) only [show totalChars ["Go"] = 2 from by decide,
    List.length_cons, List.length_nil, natCast_eq_num, scientific_eq_num, ofNat_eq_num,
    zero_eq_num, one_eq_num, num_mul, num_add, num_sub, num_div, jlt_num, jgt_num,
    jfloor_num, jceil_num, jround_num, Nat.cast_one, Nat.cast_zero, Nat.cast_ofNat,
    zero_add, decide_eq_true_eq, if_pos, if_neg, zTransform]
  norm_num

theorem colemanLiau_GoDot : colemanLiau ["Go."] = JSNum.num 1 := by
  unfold colemanLiau
  simp (disch := norm_num) only [show totalChars ["Go."] = 3 from by decide,
    List.length_cons, List.length_nil, natCast_eq_num, scientific_eq_num, ofNat_eq_num,
    zero_eq_num, one_eq_num, num_mul, num_add, num_sub, num_div, jlt_num, jgt_num,
    jfloor_num, jceil_num, jround_num, Nat.cast_one, Nat.cast_zero, Nat.cast_ofNat,
    zero_add, decide_eq_true_eq, if_pos, if_neg, zTransform]
  norm_num

theorem automatedReadability_Go : automatedReadability ["Go"] = JSNum.num 0 := by
  unfold automatedReadability
  simp (disch := norm_num) only [Int.ceil_neg, show totalChars ["Go"] = 2 from by decide,
    List.length_cons, List.length_nil, natCast_eq_num, scientific_eq_num, ofNat_eq_num,
    zero_eq_num, one_eq_num, num_mul, num_add, num_sub, num_div, jlt_num, jgt_num,
    jfloor_num, jceil_num, jround_num, Nat.cast_one, Nat.cast_zero, Nat.cast_ofNat,
    zero_add, decide_eq_true_eq, if_pos, if_neg, zTransform]
  norm_num [Int.ceil_neg]

theorem automatedReadability_GoDot : automatedReadability ["Go."] = JSNum.num 0 := by
  unfold automatedReadability
  simp (disch := norm_num) only [Int.ceil_neg, show totalChars ["Go."] = 3 from by decide,
    List.length_cons, List.length_nil, natCast_eq_num, scientific_eq_num, ofNat_eq_num,
    zero_eq_num, one_eq_num, num_mul, num_add, num_sub, num_div, jlt_num, jgt_num,
    jfloor_num, jceil_num, jround_num, Nat.cast_one, Nat.cast_zero, Nat.cast_ofNat,
    zero_add, decide_eq_true_eq, if_pos, if_neg, zTransform]
  norm_num [Int.ceil_neg]

/-- Decorating a sentence whose normalized score is the integer `0`. -/
theorem decorate_num0 (x y : ℤ) :
    decorate ⟨x, y, JSNum.num 0⟩ = some ⟨x, y, 0⟩ := by
  simp only [decorate]
  norm_num

/-- Decorating a sentence whose normalized score is the integer `1`. -/
theorem decorate_num1 (x y : ℤ) :
    decorate ⟨x, y, JSNum.num 1⟩ = some ⟨x, y, 1⟩ := by
  simp only [decorate]
  norm_num [Rat.den_ofNat]

/-- Decorating a `NaN` score throws (`scoreDecorations[NaN]` is undefined). -/
theorem decorate_nan (x y : ℤ) : decorate ⟨x, y, JSNum.nan⟩ = none := rfl

/-- The total character count of a one-word list is the word's length. -/
theorem totalChars_single (w : String) : totalChars [w] = w.length := by
  have h : String.join [w] = w := by
    show List.foldl (fun r s => r ++ s) "" [w] = w
    simp [List.foldl]
  simp [totalChars, h]

/-- Definitional unfolding of the extractor pipeline, used to evaluate
concrete inputs stage by stage. -/
theorem extractScores_eq (text : String) (offset : ℤ) (a : Alg) :
    extractScores text offset a =
      decorateAll ((filteredRecs text.toList).map (fun v =>
        ⟨offset + v.idx, offset + v.rEnd,
          readabilityAlgorithms a (wordsOfSentence v.sentence)⟩)) := rfl

/-! ## Claim theorems -/

/-- C6: the spec claims `extractScores` is a total function that never
throws; the code violates this.  On the text of two spaces the single
candidate survives the (untrimmed) length filter, tokenizes to an empty word
list, every algorithm computes `NaN`, and `scoreDecorations[NaN].range`
throws — modelled by `none`. -/
theorem c6_totality_bug : ∀ a : Alg, extractScores "  " 0 a = none := by
  have hf : filteredRecs ("  ".toList) = [⟨0, 3, 2, "  ".toList⟩] := by decide
  have hw : wordsOfSentence ("  ".toList) = [] := by decide
  intro a
  rw [extractScores_eq, hf]
  simp only [List.map_cons, List.map_nil]
  rw [hw]
  cases a <;>
    simp [readabilityAlgorithms, daleChall_nil, gunningFog_nil, colemanLiau_nil,
      automatedReadability_nil, decorateAll, decorate_nan]

/-- C4: for any one-word list (in particular `["a"]`) no algorithm raises
(each returns a finite number), the word is not counted as difficult, and
the outcome agrees with treating the standard deviation as zero (under a
`mean + 2·0` threshold the single word is not difficult either, since its
length equals the mean). -/
theorem c4_single_word (w : String) :
    difficultCount [w] = 0 ∧
    (∀ a : Alg, (readabilityAlgorithms a [w]).isNum = true) ∧
    ¬ (meanQ [w] + 2 * 0 < (w.length : ℚ)) := by
  refine ⟨difficultCount_single w, ?_, ?_⟩
  · intro a
    cases a <;>
      simp [readabilityAlgorithms, daleChall_single, gunningFog_single,
        colemanLiau_single_isNum, automatedReadability_single_isNum]
  · simp [meanQ, totalChars_single]

/-- C2 (counterexample): on `"Go. Go. Go."` the extractor does not produce
three sentences equal to `"Go"` — the split keeps the final period, so the
third sentence is `"Go."`. -/
theorem c2_counterexample :
    sentTexts "Go. Go. Go." = ["Go", "Go", "Go."] ∧ ("Go." : String) ≠ "Go" :=
  ⟨by decide, by decide⟩

/-- C2 (amended): on `"Go. Go. Go."` (at any offset, any algorithm) the
extractor emits the sentences `"Go"`, `"Go"`, `"Go."` at three distinct,
strictly increasing, non-overlapping ranges `(0,3)`, `(4,7)`, `(8,12)`
(shifted by the offset) — not three copies of the first occurrence — because
each occurrence search starts at the end position of the previous match. -/
theorem c2_repeated_sentences (offset : ℤ) (a : Alg) :
    (extractScores "Go. Go. Go." offset a).map
        (fun l => l.map (fun r => (r.fromPos, r.toPos))) =
      some [(offset, offset + 3), (offset + 4, offset + 7), (offset + 8, offset + 12)] ∧
    (offset < offset + 3 ∧ offset + 3 ≤ offset + 4 ∧ offset + 4 < offset + 7 ∧
      offset + 7 ≤ offset + 8 ∧ offset + 8 < offset + 12) := by
  have hf : filteredRecs ("Go. Go. Go.".toList) =
      [⟨0, 3, 2, "Go".toList⟩, ⟨4, 7, 2, "Go".toList⟩, ⟨8, 12, 3, "Go.".toList⟩] := by
    decide
  have hw1 : wordsOfSentence ("Go".toList) = ["Go"] := by decide
  have hw2 : wordsOfSentence ("Go.".toList) = ["Go."] := by decide
  refine ⟨?_, by omega⟩
  rw [extractScores_eq, hf]
  simp only [List.map_cons, List.map_nil]
  rw [hw1, hw2]
  cases a <;>
    simp [readabilityAlgorithms, daleChall_single, gunningFog_single,
      colemanLiau_Go, colemanLiau_GoDot, automatedReadability_Go,
      automatedReadability_GoDot, decorateAll, decorate_num0, decorate_num1]

/-- C3 (counterexample): for `"*hello* world"` the word list used for
scoring is `["world"]` — the emphasis regex removes the whole `*hello*`
construct, text included — so it does not contain exactly 2 words. -/
theorem c3_counterexample :
    wordLists "*hello* world" = [["world"]] ∧
    (["world"] : List String).length ≠ 2 :=
  ⟨by decide, by decide⟩

/-- C3 (amended): for `"*hello* world"` the emitted range `(0, 14)` covers
the whole original markup-bearing text (length 13; the end is extended by
one even at end-of-text because `charAt` yields `''` there and
`'.:!?'.includes('')` is true); the word list for scoring is computed from
the inline-stripped copy `" world"` and contains exactly 1 word; and inline
stripping never changes the previously computed ranges (for every text,
cursor and candidate list the located ranges agree with the stripping-free
variant). -/
theorem c3_markup_strip :
    (extractScores "*hello* world" 0 Alg.daleChall = some [⟨0, 14, 0⟩] ∧
      wordLists "*hello* world" = [["world"]] ∧
      ("*hello* world".toList).length = 13) ∧
    ∀ (t : List Char) (cur : ℤ) (cands : List (List Char)),
      (locateGo t cur cands).map (fun v => (v.idx, v.rEnd)) =
        (locateGoRaw t cur cands).map (fun v => (v.idx, v.rEnd)) := by
  constructor
  · have hf : filteredRecs ("*hello* world".toList) =
        [⟨0, 14, 13, " world".toList⟩] := by decide
    have hw : wordsOfSentence (" world".toList) = ["world"] := by decide
    refine ⟨?_, by decide, by decide⟩
    rw [extractScores_eq, hf]
    simp only [List.map_cons, List.map_nil]
    rw [hw]
    simp [readabilityAlgorithms, daleChall_single, decorateAll, decorate_num0]
  · intro t cur cands
    induction cands generalizing cur with
    | nil => rfl
    | cons c rest ih => simp [locateGo, locateGoRaw, ih]

/-- C7 (counterexample): the candidate `" a"` has trimmed length 1 but
untrimmed length 2, passes the source's (untrimmed) length filter, and a
range is emitted for it — the extractor does not discard candidates by
trimmed length. -/
theorem c7_counterexample :
    extractScores " a" 0 Alg.daleChall = some [⟨0, 3, 0⟩] ∧
    sentTexts " a" = [" a"] ∧ (jsTrim (" a".toList)).length = 1 := by
  have hf : filteredRecs (" a".toList) = [⟨0, 3, 2, " a".toList⟩] := by decide
  have hw : wordsOfSentence (" a".toList) = ["a"] := by decide
  refine ⟨?_, by decide, by decide⟩
  rw [extractScores_eq, hf]
  simp only [List.map_cons, List.map_nil]
  rw [hw]
  simp [readabilityAlgorithms, daleChall_single, decorateAll, decorate_num0]

/-- C1 (counterexample): on the text `` "`\nxy.q\n`\nxy. .q" `` the two
emitted ranges `(2,5)` and `(4,6)` overlap: the candidate `"xy"` is found at
its earlier occurrence inside the removed code block, the punctuation
extension stretches its range over position 4, and the next candidate
`".q"` is found exactly there. -/
theorem c1_counterexample :
    extractScores "`\nxy.q\n`\nxy. .q" 0 Alg.daleChall =
      some [⟨2, 5, 0⟩, ⟨4, 6, 0⟩] ∧
    ¬ ([(⟨2, 5, 0⟩ : ScoredRange), ⟨4, 6, 0⟩].Pairwise
        (fun x y => x.toPos ≤ y.fromPos)) := by
  have hf : filteredRecs ("`\nxy.q\n`\nxy. .q".toList) =
      [⟨2, 5, 2, "xy".toList⟩, ⟨4, 6, 2, ".q".toList⟩] := by decide
  have hw1 : wordsOfSentence ("xy".toList) = ["xy"] := by decide
  have hw2 : wordsOfSentence (".q".toList) = [".q"] := by decide
  constructor
  · rw [extractScores_eq, hf]
    simp only [List.map_cons, List.map_nil]
    rw [hw1, hw2]
    simp [readabilityAlgorithms, daleChall_single, decorateAll, decorate_num0]
  · intro h
    have h5 : (5 : ℤ) ≤ 4 := (List.pairwise_cons.1 h).1 ⟨4, 6, 0⟩ (by simp)
    omega

/-- C5: the normalizer maps the source bounds to 0 and 10 (default target
range) and in general computes the fraction, rounds it to two decimals,
rescales to `[0, 10]` and rounds to the nearest integer. -/
theorem c5_normalizer (lo hi : ℚ) (h : lo < hi) :
    zTransform (JSNum.num lo) (JSNum.num lo) (JSNum.num hi) (JSNum.num 0) (JSNum.num 10) =
      JSNum.num 0 ∧
    zTransform (JSNum.num hi) (JSNum.num lo) (JSNum.num hi) (JSNum.num 0) (JSNum.num 10) =
      JSNum.num 10 ∧
    ∀ v : ℚ,
      zTransform (JSNum.num v) (JSNum.num lo) (JSNum.num hi) (JSNum.num 0) (JSNum.num 10) =
        JSNum.num (normalizeSpec v lo hi) := by
  have hne : hi - lo ≠ 0 := sub_ne_zero.2 h.ne'
  have h3 : ∀ v : ℚ,
      zTransform (JSNum.num v) (JSNum.num lo) (JSNum.num hi) (JSNum.num 0) (JSNum.num 10) =
        JSNum.num (normalizeSpec v lo hi) := by
    intro v
    rw [zTransform_num v lo hi 0 10 hne]
    simp only [normalizeSpec, roundQ]
    norm_num
  refine ⟨?_, ?_, h3⟩
  · rw [h3 lo]
    simp only [normalizeSpec, roundQ]
    norm_num
  · rw [h3 hi]
    simp only [normalizeSpec, roundQ]
    rw [div_self hne]
    norm_num

/-- Witness for C5 at the ARI source range `[0, 50]` and the value 37
(normalized to 7). -/
theorem c5_normalizer_witness :
    zTransform (JSNum.num 0) (JSNum.num 0) (JSNum.num 50) (JSNum.num 0) (JSNum.num 10) =
      JSNum.num 0 ∧
    zTransform (JSNum.num 50) (JSNum.num 0) (JSNum.num 50) (JSNum.num 0) (JSNum.num 10) =
      JSNum.num 10 ∧
    zTransform (JSNum.num 37) (JSNum.num 0) (JSNum.num 50) (JSNum.num 0) (JSNum.num 10) =
      JSNum.num (normalizeSpec 37 0 50) :=
  ⟨(c5_normalizer 0 50 (by norm_num)).1, (c5_normalizer 0 50 (by norm_num)).2.1,
    (c5_normalizer 0 50 (by norm_num)).2.2 37⟩

/-- C9: for a non-empty word list the ARI computes
`4.71·mean + 0.5·total − 21.43`, rounds it up with ceiling, clamps to
`[0, 50]`, and feeds the normalizer with source range `[0, 50]`. -/
theorem c9_ari (ws : List String) (h : ws ≠ []) :
    automatedReadability ws = JSNum.num (ariSpec ws) := by
  have hn : (ws.length : ℚ) ≠ 0 := by
    have : ws.length ≠ 0 := fun hc => h (List.length_eq_zero.1 hc)
    exact_mod_cast Nat.cast_ne_zero.2 this
  unfold automatedReadability ariSpec
  simp (disch := simp [hn]) only [natCast_eq_num, scientific_eq_num, ofNat_eq_num,
    zero_eq_num, one_eq_num, num_mul, num_add, num_sub, num_div, jceil_num,
    jlt_num, jgt_num, decide_eq_true_eq]
  set c : ℚ :=
    ((⌈(4.71 : ℚ) * ((totalChars ws : ℚ) / (ws.length : ℚ)) +
        0.5 * (ws.length : ℚ) - 21.43⌉ : ℤ) : ℚ) with hc
  split_ifs with h1 h2 h3
  · norm_num at h2
  · rw [zTransform_num 0 0 50 0 10 (by norm_num)]
    rw [max_eq_left (le_of_lt (lt_of_le_of_lt (min_le_right 50 c) h1))]
    simp only [normalizeSpec, roundQ]
    norm_num
  · simp only [jgt_num, decide_eq_true_eq] at h3
    rw [zTransform_num 50 0 50 0 10 (by norm_num)]
    rw [min_eq_left (le_of_lt h3), max_eq_right (by norm_num : (0:ℚ) ≤ 50)]
    simp only [normalizeSpec, roundQ]
    norm_num
  · simp only [jgt_num, decide_eq_true_eq] at h3
    rw [zTransform_num c 0 50 0 10 (by norm_num)]
    rw [min_eq_right (not_lt.1 h3), max_eq_right (not_lt.1 h1)]
    simp only [normalizeSpec, roundQ]
    norm_num

/-- Witness for C9 at the word list `["abc"]`. -/
theorem c9_ari_witness :
    (["abc"] : List String) ≠ [] ∧
    automatedReadability ["abc"] = JSNum.num (ariSpec ["abc"]) :=
  ⟨by decide, c9_ari ["abc"] (by decide)⟩

/-- The total character count is the sum of the word lengths. -/
theorem totalChars_eq_sum (ws : List String) :
    totalChars ws = (ws.map String.length).sum := by
  have aux : ∀ (l : List String) (acc : String),
      (List.foldl (fun r s => r ++ s) acc l).length =
        acc.length + (l.map String.length).sum := by
    intro l
    induction l with
    | nil => intro acc; simp
    | cons w rest ih =>
        intro acc
        simp only [List.foldl_cons, ih, String.length_append, List.map_cons,
          List.sum_cons]
        omega
  show (String.join ws).length = _
  rw [String.join, aux ws ""]
  simp

/-- C10: every algorithm's score depends only on the multiset of word
lengths: word lists whose length lists are permutations of one another get
the same score. -/
theorem c10_length_invariance (a : Alg) (ws₁ ws₂ : List String)
    (h : (ws₁.map String.length).Perm (ws₂.map String.length)) :
    readabilityAlgorithms a ws₁ = readabilityAlgorithms a ws₂ := by
  have hlen : ws₁.length = ws₂.length := by
    have := h.length_eq
    simpa using this
  have htc : totalChars ws₁ = totalChars ws₂ := by
    rw [totalChars_eq_sum, totalChars_eq_sum, h.sum_eq]
  have hmean : meanQ ws₁ = meanQ ws₂ := by
    rw [meanQ, meanQ, htc, hlen]
  have hsos : sosQ ws₁ = sosQ ws₂ := by
    have e : ∀ ws : List String, ∀ m : ℚ,
        (ws.map (fun w => ((w.length : ℚ) - m) ^ 2)).sum =
          ((ws.map String.length).map (fun l : ℕ => ((l : ℚ) - m) ^ 2)).sum := by
      intro ws m; rw [List.map_map]; rfl
    rw [sosQ, sosQ, hmean, e ws₁ (meanQ ws₂), e ws₂ (meanQ ws₂),
      (h.map (fun l : ℕ => ((l : ℚ) - meanQ ws₂) ^ 2)).sum_eq]
  have hdc : difficultCount ws₁ = difficultCount ws₂ := by
    have e : ∀ ws : List String,
        difficultCount ws =
          (ws.map String.length).countP
            (isDifficultLen ws.length (meanQ ws)
              (sosQ ws / ((ws.length : ℚ) - 1))) := by
      intro ws
      rw [difficultCount, ← List.countP_eq_length_filter, List.countP_map]
      rfl
    rw [e ws₁, e ws₂, hlen, hmean, hsos,
      h.countP_eq (isDifficultLen ws₂.length (meanQ ws₂)
        (sosQ ws₂ / ((ws₂.length : ℚ) - 1)))]
  cases a <;>
    simp only [readabilityAlgorithms, daleChall, gunningFog, colemanLiau,
      automatedReadability, hdc, hlen, htc]

/-- Witness for C10: `["ab","c"]` and `["z","xy"]` have length lists
`[2,1]` and `[1,2]` and get identical Dale-Chall scores. -/
theorem c10_length_invariance_witness :
    ((["ab", "c"] : List String).map String.length).Perm
      ((["z", "xy"] : List String).map String.length) ∧
    readabilityAlgorithms Alg.daleChall ["ab", "c"] =
      readabilityAlgorithms Alg.daleChall ["z", "xy"] :=
  ⟨by decide, c10_length_invariance Alg.daleChall _ _ (by decide)⟩

/-! ## Structural lemmas for the extractor -/

/-- Inline stripping of the empty sentence is empty. -/
theorem inlineStrip_nil : inlineStrip [] = [] := rfl

/-- A successful `indexOf` search started inside the text returns a
position at or after the start, with the whole pattern inside the text. -/
theorem jsIndexOf_spec (t pat : List Char) (cur : ℤ) (h0 : 0 ≤ cur)
    (hle : cur ≤ (t.length : ℤ)) (hf : 0 ≤ jsIndexOf t pat cur) :
    cur ≤ jsIndexOf t pat cur ∧
    jsIndexOf t pat cur + (pat.length : ℤ) ≤ (t.length : ℤ) := by
  have hst : ((min (max cur 0).toNat t.length : ℕ) : ℤ) = cur := by
    rw [max_eq_left h0]
    omega
  match pat with
  | [] =>
      simp only [jsIndexOf, List.isEmpty_nil, if_true, List.length_nil]
      omega
  | c :: cs =>
      unfold jsIndexOf at hf ⊢
      rw [if_neg (by simp)] at hf ⊢
      cases hfind : (List.range (t.length + 1)).find?
          (fun i => min (max cur 0).toNat t.length ≤ i && seqAt t i (c :: cs)) with
      | none =>
          rw [hfind] at hf
          simp at hf
      | some i =>
          rw [hfind] at hf
          have hpred := List.find?_some hfind
          simp only [Bool.and_eq_true, decide_eq_true_eq] at hpred
          obtain ⟨hsti, hseq⟩ := hpred
          have hseq' : (t.drop i).take (c :: cs).length = c :: cs := by
            simpa [seqAt] using hseq
          have hlen2 : (c :: cs).length + i ≤ t.length := by
            have := congrArg List.length hseq'
            simp only [List.length_take, List.length_drop] at this
            have hpos : (c :: cs).length = cs.length + 1 := List.length_cons c cs
            omega
          simp only [Option.map_some', Option.getD_some, Int.ofNat_eq_natCast] at hf ⊢
          have hlen3 : (i : ℤ) + ((c :: cs).length : ℤ) ≤ (t.length : ℤ) := by
            have h4 : i + (c :: cs).length ≤ t.length := by omega
            exact_mod_cast h4
          refine ⟨by omega, hlen3⟩



/-- Invariant of the locating map: when every search succeeds, each record
sits at or after the cursor, its range end is its match end possibly
extended by one, its sentence is the inline-stripped candidate, and the
records are ordered (each match starts at or after the previous match's
end). -/
theorem locateGo_invariant (t : List Char) (cands : List (List Char)) :
    ∀ cur : ℤ, 0 ≤ cur → cur ≤ (t.length : ℤ) →
      allFoundGo t cur cands = true →
      (∀ r ∈ locateGo t cur cands,
          cur ≤ r.idx ∧ 0 ≤ r.idx ∧
          (r.idx + (r.clen : ℤ) ≤ r.rEnd ∧ r.rEnd ≤ r.idx + (r.clen : ℤ) + 1) ∧
          ∃ c : List Char, r.clen = c.length ∧ r.sentence = inlineStrip c) ∧
      (locateGo t cur cands).Pairwise (fun a b => a.idx + (a.clen : ℤ) ≤ b.idx) := by
  induction cands with
  | nil =>
      intro cur h0 hle _
      exact ⟨by simp [locateGo], by simp [locateGo]⟩
  | cons c rest ih =>
      intro cur h0 hle hall
      simp only [allFoundGo, Bool.and_eq_true, decide_eq_true_eq] at hall
      obtain ⟨hidx, hrest⟩ := hall
      have hspec := jsIndexOf_spec t c cur h0 hle hidx
      have h0' : 0 ≤ jsIndexOf t c cur + (c.length : ℤ) := by
        have : (0 : ℤ) ≤ (c.length : ℤ) := by positivity
        omega
      have ihres := ih (jsIndexOf t c cur + (c.length : ℤ)) h0' hspec.2 hrest
      constructor
      · intro r hr
        simp only [locateGo, List.mem_cons] at hr
        rcases hr with rfl | hr
        · refine ⟨hspec.1, hidx, ?_, ⟨c, rfl, rfl⟩⟩
          dsimp only
          split <;> omega
        · have hh := ihres.1 r hr
          exact ⟨by omega, hh.2.1, hh.2.2.1, hh.2.2.2⟩
      · simp only [locateGo]
        refine List.Pairwise.cons ?_ ihres.2
        intro b hb
        have hh := ihres.1 b hb
        dsimp only
        omega



/-- A successful decoration preserves the range. -/
theorem decorate_fields (v : Scored) (r : ScoredRange) (h : decorate v = some r) :
    r.fromPos = v.fromPos ∧ r.toPos = v.toPos := by
  rcases v with ⟨f, tp, sc⟩
  cases sc with
  | num q =>
      simp only [decorate] at h
      split_ifs at h
      · injection h with h2
        subst h2
        exact ⟨rfl, rfl⟩
  | nan => simp [decorate] at h
  | inf => simp [decorate] at h
  | ninf => simp [decorate] at h

/-- A successful decoration pass relates inputs and outputs elementwise,
preserving the ranges. -/
theorem decorateAll_forall₂ (xs : List Scored) :
    ∀ l : List ScoredRange, decorateAll xs = some l →
      List.Forall₂ (fun v r => r.fromPos = v.fromPos ∧ r.toPos = v.toPos) xs l := by
  induction xs with
  | nil =>
      intro l h
      simp only [decorateAll, Option.some_inj] at h
      subst h
      exact List.Forall₂.nil
  | cons v rest ih =>
      intro l h
      simp only [decorateAll] at h
      cases hd : decorate v with
      | none => rw [hd] at h; cases h
      | some r =>
          cases hrest : decorateAll rest with
          | none => rw [hd, hrest] at h; cases h
          | some rs =>
              rw [hd, hrest] at h
              injection h with h2
              subst h2
              exact List.Forall₂.cons (decorate_fields v r hd) (ih rs hrest)

/-- Each member of the right list of a `Forall₂` has a related member on
the left. -/
theorem forall₂_mem_right {α β : Type} {P : α → β → Prop} :
    ∀ {xs : List α} {l : List β}, List.Forall₂ P xs l →
      ∀ {b : β}, b ∈ l → ∃ a ∈ xs, P a b := by
  intro xs l h
  induction h with
  | nil => intro b hb; cases hb
  | cons hP hrest ih =>
      intro b hb
      rcases List.mem_cons.1 hb with rfl | hb
      · exact ⟨_, List.mem_cons_self _ _, hP⟩
      · obtain ⟨a, ha, hPa⟩ := ih hb
        exact ⟨a, List.mem_cons_of_mem _ ha, hPa⟩

/-- Transport of `Pairwise` along an elementwise relation. -/
theorem pairwise_of_forall₂ {α β : Type} {P : α → β → Prop} {R : α → α → Prop}
    {S : β → β → Prop} :
    ∀ {xs : List α} {l : List β}, List.Forall₂ P xs l → xs.Pairwise R →
      (∀ a a' b b', P a b → P a' b' → R a a' → S b b') → l.Pairwise S := by
  intro xs l h
  induction h with
  | nil => intro _ _; exact List.Pairwise.nil
  | cons hP hrest ih =>
      intro hpw hcomp
      rcases List.pairwise_cons.1 hpw with ⟨hhead, htail⟩
      refine List.Pairwise.cons ?_ (ih htail hcomp)
      intro b' hb'
      obtain ⟨a', ha', hPa'⟩ := forall₂_mem_right hrest hb'
      exact hcomp _ _ _ _ hP hPa' (hhead a' ha')



/-- Kept records come from non-empty candidates and carry well-formed
range data. -/
theorem filteredRecs_clen (t : List Char) (hfound : allFoundGo t 0 (candidates t) = true) :
    ∀ r ∈ filteredRecs t, 1 ≤ r.clen ∧ 0 ≤ r.idx ∧
      r.idx + (r.clen : ℤ) ≤ r.rEnd ∧ r.rEnd ≤ r.idx + (r.clen : ℤ) + 1 := by
  intro r hr
  have hmem := List.mem_filter.1 hr
  have hlen : 2 ≤ r.sentence.length := by
    have := hmem.2
    simpa using this
  have hinv := (locateGo_invariant t (candidates t) 0 le_rfl
    (by exact_mod_cast Int.ofNat_nonneg t.length) hfound).1 r hmem.1
  obtain ⟨c, hc1, hc2⟩ := hinv.2.2.2
  have hc_pos : 1 ≤ r.clen := by
    rcases c with _ | ⟨x, xs⟩
    · rw [hc2, inlineStrip_nil] at hlen
      simp at hlen
    · rw [hc1]; simp
  exact ⟨hc_pos, hinv.2.1, hinv.2.2.1.1, hinv.2.2.1.2⟩

/-- The kept records inherit the ordering of the locating map. -/
theorem filteredRecs_pairwise (t : List Char)
    (hfound : allFoundGo t 0 (candidates t) = true) :
    (filteredRecs t).Pairwise (fun a b => a.idx + (a.clen : ℤ) ≤ b.idx) := by
  have hinv := (locateGo_invariant t (candidates t) 0 le_rfl
    (by exact_mod_cast Int.ofNat_nonneg t.length) hfound).2
  exact hinv.filter _

/-- C1 (amended): whenever every candidate is located (all `indexOf` calls
succeed — the situation the spec itself deems the only reachable one), every
emitted range satisfies `from < to` and the ranges are strictly sorted by
`from`; overlap-freedom, however, does not hold (see the counterexample). -/
theorem c1_range_integrity (text : String) (offset : ℤ) (a : Alg)
    (l : List ScoredRange) (hfound : allFound text = true)
    (h : extractScores text offset a = some l) :
    (∀ r ∈ l, r.fromPos < r.toPos) ∧
    l.Pairwise (fun x y => x.fromPos < y.fromPos) := by
  rw [extractScores_eq] at h
  have hforall2 := decorateAll_forall₂ _ l h
  have hclen := filteredRecs_clen text.toList hfound
  constructor
  · intro r hr
    obtain ⟨x, hx, hPx⟩ := forall₂_mem_right hforall2 hr
    obtain ⟨v, hv, rfl⟩ := List.mem_map.1 hx
    have hb := hclen v hv
    rw [hPx.1, hPx.2]
    dsimp only
    omega
  · have hpw_strict : (filteredRecs text.toList).Pairwise
        (fun a b => a.idx < b.idx) := by
      refine (filteredRecs_pairwise text.toList hfound).imp_of_mem ?_
      intro a b ha hb hr
      have := (hclen a ha).1
      omega
    have hpw_scored : ((filteredRecs text.toList).map (fun v =>
        (⟨offset + v.idx, offset + v.rEnd,
          readabilityAlgorithms a (wordsOfSentence v.sentence)⟩ : Scored))).Pairwise
        (fun x y => x.fromPos < y.fromPos) := by
      refine (List.pairwise_map).2 ?_
      refine hpw_strict.imp ?_
      intro x y hxy
      dsimp only
      omega
    refine pairwise_of_forall₂ hforall2 hpw_scored ?_
    intro x x' b b' hP hP' hR
    rw [hP.1, hP'.1]
    exact hR



/-- C7 (amended): every emitted range comes from a candidate whose
inline-stripped sentence has *untrimmed* length at least 2 — the source's
filter does not trim. -/
theorem c7_length_filter (text : String) (offset : ℤ) (a : Alg)
    (l : List ScoredRange) (h : extractScores text offset a = some l) :
    ∀ r ∈ l, ∃ v ∈ filteredRecs text.toList,
      2 ≤ v.sentence.length ∧ r.fromPos = offset + v.idx ∧
      r.toPos = offset + v.rEnd := by
  intro r hr
  rw [extractScores_eq] at h
  obtain ⟨x, hx, hPx⟩ := forall₂_mem_right (decorateAll_forall₂ _ l h) hr
  obtain ⟨v, hv, rfl⟩ := List.mem_map.1 hx
  have hlen : 2 ≤ v.sentence.length := by
    have := (List.mem_filter.1 hv).2
    simpa using this
  exact ⟨v, hv, hlen, hPx.1, hPx.2⟩

/-- C8 (amended): a candidate whose occurrence search fails is *not*
skipped: the locating map still emits a record for it, with `indexOf`'s
`-1` as its position (so `from = offset - 1`), and the length filter keeps
it whenever the inline-stripped sentence has length at least 2.  No error is
raised (the function is total). -/
theorem c8_not_found_emits (t : List Char) (cur : ℤ) (c : List Char)
    (hnf : jsIndexOf t c cur = -1) (hlen : 2 ≤ (inlineStrip c).length) :
    ∃ r : Located,
      (locateGo t cur [c]).filter (fun v => 2 ≤ v.sentence.length) = [r] ∧
      r.idx = -1 := by
  refine ⟨⟨-1,
    (if punctAt t (-1 + (c.length : ℤ)) then (-1 + (c.length : ℤ)) + 1
      else -1 + (c.length : ℤ)),
    c.length, inlineStrip c⟩, ?_, rfl⟩
  simp only [locateGo, hnf, List.filter]
  simp [hlen]



/-- Witness for C1 on the text `"ab. cd"`: both emitted ranges satisfy
`from < to` and are strictly sorted. -/
theorem c1_range_integrity_witness :
    (∀ r ∈ ([⟨0, 3, 0⟩, ⟨4, 7, 0⟩] : List ScoredRange), r.fromPos < r.toPos) ∧
    ([⟨0, 3, 0⟩, ⟨4, 7, 0⟩] : List ScoredRange).Pairwise
      (fun x y => x.fromPos < y.fromPos) := by
  have hf : filteredRecs ("ab. cd".toList) =
      [⟨0, 3, 2, "ab".toList⟩, ⟨4, 7, 2, "cd".toList⟩] := by decide
  have hw1 : wordsOfSentence ("ab".toList) = ["ab"] := by decide
  have hw2 : wordsOfSentence ("cd".toList) = ["cd"] := by decide
  have hex : extractScores "ab. cd" 0 Alg.daleChall =
      some [⟨0, 3, 0⟩, ⟨4, 7, 0⟩] := by
    rw [extractScores_eq, hf]
    simp only [List.map_cons, List.map_nil]
    rw [hw1, hw2]
    simp [readabilityAlgorithms, daleChall_single, decorateAll, decorate_num0]
  exact c1_range_integrity "ab. cd" 0 Alg.daleChall _ (by decide) hex

/-- Witness for C7 on the text `"ab"`: the single emitted range comes from
the kept record of the sentence `"ab"` (untrimmed length 2). -/
theorem c7_length_filter_witness :
    2 ≤ ("ab".toList : List Char).length ∧
    (⟨0, 3, 0⟩ : ScoredRange).fromPos = 0 + (⟨0, 3, 2, "ab".toList⟩ : Located).idx ∧
    (⟨0, 3, 0⟩ : ScoredRange).toPos = 0 + (⟨0, 3, 2, "ab".toList⟩ : Located).rEnd := by
  have hf : filteredRecs ("ab".toList) = [⟨0, 3, 2, "ab".toList⟩] := by decide
  have hw : wordsOfSentence ("ab".toList) = ["ab"] := by decide
  have hex : extractScores "ab" 0 Alg.daleChall = some [⟨0, 3, 0⟩] := by
    rw [extractScores_eq, hf]
    simp only [List.map_cons, List.map_nil]
    rw [hw]
    simp [readabilityAlgorithms, daleChall_single, decorateAll, decorate_num0]
  obtain ⟨v, hv, h2, h3, h4⟩ :=
    c7_length_filter "ab" 0 Alg.daleChall _ hex ⟨0, 3, 0⟩ (by simp)
  rw [hf] at hv
  have hveq : v = ⟨0, 3, 2, "ab".toList⟩ := by simpa using hv
  subst hveq
  exact ⟨h2, h3, h4⟩

/-- C8 (counterexample): the locating map applied to a candidate that is
not found (`"abcd"` against text `"xyz"`) emits a record with `idx = -1`
that survives the length filter — the candidate is not skipped, refuting
the claim that no range is emitted for it. -/
theorem c8_counterexample :
    jsIndexOf "xyz".toList "abcd".toList 0 = -1 ∧
    locateGo "xyz".toList 0 ["abcd".toList] = [⟨-1, 4, 4, "abcd".toList⟩] ∧
    ((locateGo "xyz".toList 0 ["abcd".toList]).filter
      (fun v => 2 ≤ v.sentence.length)).length ≠ 0 := by
  refine ⟨by decide, by decide, by decide⟩

/-- Witness for C8: the not-found candidate `"abcd"` against `"xyz"` is
emitted with position `-1` and kept by the filter. -/
theorem c8_not_found_emits_witness :
    jsIndexOf "xyz".toList "abcd".toList 0 = -1 ∧
    2 ≤ (inlineStrip "abcd".toList).length ∧
    (⟨-1, 4, 4, "abcd".toList⟩ : Located).idx = -1 ∧
    (locateGo "xyz".toList 0 ["abcd".toList]).filter
      (fun v => 2 ≤ v.sentence.length) = [(⟨-1, 4, 4, "abcd".toList⟩ : Located)] := by
  obtain ⟨r, hr1, hr2⟩ :=
    c8_not_found_emits "xyz".toList 0 "abcd".toList (by decide) (by decide)
  have hcalc : (locateGo "xyz".toList 0 ["abcd".toList]).filter
      (fun v => 2 ≤ v.sentence.length) = [(⟨-1, 4, 4, "abcd".toList⟩ : Located)] := by
    decide
  rw [hcalc] at hr1
  injection hr1 with h1 _
  exact ⟨by decide, by decide, h1 ▸ hr2, hcalc⟩

end Readability
